import Mathlib

/-!
Verification development for the `runce` singleton-process registry.

The Python source is shallowly embedded: files are lists of bytes
(`List Nat`, each < 256 in intent, newline = 10), the registry directory is
a partial map from path strings to file data, and the platform layer
(PID liveness, `getpgid`/`killpg`, JSON parsing, MD5) is embedded either
concretely (MD5, below) or as explicit oracle parameters where the source
merely calls into the OS.
-/

namespace Runce

/-! ## Log tailer (`runce/utils.py`: `tail_file`)

`bytes.splitlines` in Python splits on `\r\n`, `\r` and `\n`, and does not
produce a final empty chunk for a trailing terminator. -/

/-- Worker for `splitlinesB`: `cur` is the reversed current chunk. -/
def slGo : List Nat → List Nat → List (List Nat)
  | cur, [] => if cur.isEmpty then [] else [cur.reverse]
  | cur, 13 :: 10 :: rest => cur.reverse :: slGo [] rest
  | cur, 13 :: rest => cur.reverse :: slGo [] rest
  | cur, 10 :: rest => cur.reverse :: slGo [] rest
  | cur, c :: rest => slGo (c :: cur) rest

/-- Embedding of Python `bytes.splitlines()`. -/
def splitlinesB (l : List Nat) : List (List Nat) := slGo [] l

/-- Embedding of the Python slice `xs[-n:]` (for `n = 0` Python returns the
whole list, since `-0 = 0`). -/
def lastSlice (n : Nat) (xs : List (List Nat)) : List (List Nat) :=
  if n = 0 then xs else xs.drop (xs.length - n)

/-- The backward scan of `tail_file`: `posPlus1 = pos + 1` encodes the file
position (`0` encodes `pos = -1`), `count` the newlines seen so far.  Returns
the final value of `pos` when the `while` loop exits. -/
def tailPosAux (file : List Nat) (n : Nat) : Nat → Nat → Int
  | 0, _ => -1
  | p + 1, count =>
    if count < n then
      tailPosAux file n p (if file.getD p 0 = 10 then count + 1 else count)
    else (p : Int)

/-- Embedding of `tail_file(filename, n)` from `runce/utils.py`: seek to EOF,
scan backward counting newline bytes until `n` are crossed or the start of
file is passed, then `f.seek(pos + 2)`, read to EOF, `splitlines()[-n:]`. -/
def tail_file (file : List Nat) (n : Nat) : List (List Nat) :=
  let pos := tailPosAux file n file.length 0
  lastSlice n (splitlinesB (file.drop (pos + 2).toNat))

/-- The full-read-then-split reference implementation the spec compares
`tail_file` against: split the whole file into lines, keep the final `n`. -/
def tailRef (file : List Nat) (n : Nat) : List (List Nat) :=
  lastSlice n (splitlinesB file)

/-! ## Backing-file names (`runce/utils.py`: `slugify`, `get_base_name`)

`slugify` is the pair of regex substitutions
`re.sub(r"[^a-zA-Z0-9_.+-]+", "_", value)` then `re.sub(r"[_-]+", "_", ...)`
followed by `.strip("_")`; each substitution replaces a maximal run of
matching characters by a single underscore.  `get_base_name` appends the
first 24 hex digits of the MD5 of the UTF-8 encoded name.  MD5 is the
`hashlib` primitive; it is embedded concretely below (padding, 64-round
compression, little-endian serialization). -/

/-- Characters the first substitution of `slugify` keeps: `[a-zA-Z0-9_.+-]`. -/
def slugChar (c : Char) : Bool :=
  (97 ≤ c.toNat && c.toNat ≤ 122) || (65 ≤ c.toNat && c.toNat ≤ 90) ||
  (48 ≤ c.toNat && c.toNat ≤ 57) || c == '_' || c == '.' || c == '+' || c == '-'

/-- `re.sub(r"[^a-zA-Z0-9_.+-]+", "_", value)`: each maximal run of
non-slug characters becomes one underscore.  The flag records whether the
scan is inside such a run (the underscore already emitted). -/
def sub1Go : Bool → List Char → List Char
  | _, [] => []
  | inRun, c :: rest =>
    if slugChar c then c :: sub1Go false rest
    else if inRun then sub1Go true rest
    else '_' :: sub1Go true rest

/-- The first substitution of `slugify`. -/
def sub1 (l : List Char) : List Char := sub1Go false l

/-- Characters matched by the second substitution's class `[_-]`. -/
def dashChar (c : Char) : Bool := c == '_' || c == '-'

/-- `re.sub(r"[_-]+", "_", ...)`: each maximal run of `_`/`-` becomes one
underscore. -/
def sub2Go : Bool → List Char → List Char
  | _, [] => []
  | inRun, c :: rest =>
    if dashChar c then
      (if inRun then sub2Go true rest else '_' :: sub2Go true rest)
    else c :: sub2Go false rest

/-- The second substitution of `slugify`. -/
def sub2 (l : List Char) : List Char := sub2Go false l

/-- Python `.strip("_")`: drop leading and trailing underscores. -/
def stripUnderscore (l : List Char) : List Char :=
  ((l.dropWhile (· == '_')).reverse.dropWhile (· == '_')).reverse

/-- Embedding of `slugify` from `runce/utils.py`. -/
def slugify (name : List Char) : List Char :=
  stripUnderscore (sub2 (sub1 name))

/-- UTF-8 encoding of one code point (Python `str.encode()` per character). -/
def utf8Char (c : Nat) : List Nat :=
  if c < 128 then [c]
  else if c < 2048 then [192 + c / 64, 128 + c % 64]
  else if c < 65536 then [224 + c / 4096, 128 + (c / 64) % 64, 128 + c % 64]
  else [240 + c / 262144, 128 + (c / 4096) % 64, 128 + (c / 64) % 64, 128 + c % 64]

/-- Python `name.encode()`: UTF-8 bytes of the name. -/
def strEncode (name : List Char) : List Nat :=
  name.flatMap (fun c => utf8Char c.toNat)

/-! ### MD5 (the `hashlib.md5` primitive used by `get_base_name`) -/

/-- 2^32, the word modulus of MD5. -/
def m32 : Nat := 4294967296

/-- Rotate a 32-bit word left by `s` bits. -/
def rotl32 (x s : Nat) : Nat :=
  ((x <<< s) % m32) ||| (x >>> (32 - s))

/-- The 64 MD5 sine-derived round constants. -/
def mdK : List Nat :=
  [0xd76aa478, 0xe8c7b756, 0x242070db, 0xc1bdceee,
   0xf57c0faf, 0x4787c62a, 0xa8304613, 0xfd469501,
   0x698098d8, 0x8b44f7af, 0xffff5bb1, 0x895cd7be,
   0x6b901122, 0xfd987193, 0xa679438e, 0x49b40821,
   0xf61e2562, 0xc040b340, 0x265e5a51, 0xe9b6c7aa,
   0xd62f105d, 0x02441453, 0xd8a1e681, 0xe7d3fbc8,
   0x21e1cde6, 0xc33707d6, 0xf4d50d87, 0x455a14ed,
   0xa9e3e905, 0xfcefa3f8, 0x676f02d9, 0x8d2a4c8a,
   0xfffa3942, 0x8771f681, 0x6d9d6122, 0xfde5380c,
   0xa4beea44, 0x4bdecfa9, 0xf6bb4b60, 0xbebfbc70,
   0x289b7ec6, 0xeaa127fa, 0xd4ef3085, 0x04881d05,
   0xd9d4d039, 0xe6db99e5, 0x1fa27cf8, 0xc4ac5665,
   0xf4292244, 0x432aff97, 0xab9423a7, 0xfc93a039,
   0x655b59c3, 0x8f0ccc92, 0xffeff47d, 0x85845dd1,
   0x6fa87e4f, 0xfe2ce6e0, 0xa3014314, 0x4e0811a1,
   0xf7537e82, 0xbd3af235, 0x2ad7d2bb, 0xeb86d391]

/-- The 64 MD5 per-round left-rotation amounts. -/
def mdS : List Nat :=
  [7, 12, 17, 22, 7, 12, 17, 22, 7, 12, 17, 22, 7, 12, 17, 22,
   5, 9, 14, 20, 5, 9, 14, 20, 5, 9, 14, 20, 5, 9, 14, 20,
   4, 11, 16, 23, 4, 11, 16, 23, 4, 11, 16, 23, 4, 11, 16, 23,
   6, 10, 15, 21, 6, 10, 15, 21, 6, 10, 15, 21, 6, 10, 15, 21]

/-- MD5 working state: four 32-bit words. -/
structure MDState where
  a : Nat
  b : Nat
  c : Nat
  d : Nat

/-- Round function and message-word index for round `i`. -/
def mdF (b c d i : Nat) : Nat × Nat :=
  if i < 16 then ((b &&& c) ||| ((b ^^^ 4294967295) &&& d), i)
  else if i < 32 then ((d &&& b) ||| ((d ^^^ 4294967295) &&& c), (5 * i + 1) % 16)
  else if i < 48 then (b ^^^ c ^^^ d, (3 * i + 5) % 16)
  else (c ^^^ (b ||| (d ^^^ 4294967295)), (7 * i) % 16)

/-- One MD5 round on working state `st` with message words `m`. -/
def mdRound (m : List Nat) (st : MDState) (i : Nat) : MDState :=
  let fg := mdF st.b st.c st.d i
  let f := (fg.1 + st.a + mdK.getD i 0 + m.getD fg.2 0) % m32
  ⟨st.d, (st.b + rotl32 f (mdS.getD i 0)) % m32, st.b, st.c⟩

/-- Process one 512-bit chunk (given as 16 little-endian words). -/
def mdChunk (st : MDState) (m : List Nat) : MDState :=
  let e := (List.range 64).foldl (mdRound m) st
  ⟨(st.a + e.a) % m32, (st.b + e.b) % m32, (st.c + e.c) % m32, (st.d + e.d) % m32⟩

/-- Group bytes into little-endian 32-bit words. -/
def leWords : List Nat → List Nat
  | b0 :: b1 :: b2 :: b3 :: rest =>
    (b0 + 256 * b1 + 65536 * b2 + 16777216 * b3) :: leWords rest
  | _ => []

/-- MD5 padding: `0x80`, zeros to 56 mod 64, then the bit length as 8
little-endian bytes. -/
def mdPad (msg : List Nat) : List Nat :=
  let len := msg.length
  msg ++ 128 :: List.replicate ((119 - len % 64) % 64) 0 ++
    (List.range 8).map (fun i => ((8 * len) >>> (8 * i)) % 256)

/-- Split a byte string into 64-byte chunks. -/
def chunks64 (l : List Nat) : List (List Nat) :=
  if h : l = [] then []
  else l.take 64 :: chunks64 (l.drop 64)
termination_by l.length
decreasing_by
  have : 0 < l.length := List.length_pos.mpr h
  simp; omega

/-- Serialize one 32-bit word as 4 little-endian bytes. -/
def le4 (w : Nat) : List Nat :=
  [w % 256, (w >>> 8) % 256, (w >>> 16) % 256, (w >>> 24) % 256]

/-- The 16-byte MD5 digest of a byte string. -/
def md5digest (msg : List Nat) : List Nat :=
  let st := (chunks64 (mdPad msg)).foldl (fun st ch => mdChunk st (leWords ch))
    ⟨0x67452301, 0xefcdab89, 0x98badcfe, 0x10325476⟩
  le4 st.a ++ le4 st.b ++ le4 st.c ++ le4 st.d

/-- The lowercase hex alphabet `0123456789abcdef`. -/
def hexDigits : List Char :=
  (List.range 16).map (fun i => Char.ofNat (if i < 10 then 48 + i else 87 + i))

/-- One byte as two lowercase hex characters. -/
def byteHex (b : Nat) : List Char :=
  [hexDigits.getD (b / 16) '0', hexDigits.getD (b % 16) '0']

/-- Python `hashlib.md5(x).hexdigest()`. -/
def md5hexdigest (msg : List Nat) : List Char :=
  (md5digest msg).flatMap byteHex

/-- Embedding of `get_base_name` from `runce/utils.py`:
`f"{slugify(name)[:24]}_{md5(name.encode()).hexdigest()[:24]}"`. -/
def get_base_name (name : List Char) : List Char :=
  (slugify name).take 24 ++ '_' :: (md5hexdigest (strEncode name)).take 24

/-! ## Name resolution (`runce/utils.py`: `look`, `look_multiple`)

A registry record is identified by its `name`; the `tag` field stands for
the rest of the record's payload, so distinct records stay distinct.
Python's `id in name` substring test is `<:+:` (contiguous infix) on the
character list. -/

/-- A stored record as the resolver sees it. -/
structure Entry where
  name : List Char
  tag : Nat
deriving DecidableEq

/-- Result of `look`: a record, Python `False` (two partial matches), or
Python `None` (no match). -/
inductive LookRes where
  | found : Entry → LookRes
  | multiple : LookRes
  | missing : LookRes
deriving DecidableEq

/-- The loop of `look`: `m` is the pending unique partial match. -/
def lookGo (id : List Char) : List Entry → Option Entry → LookRes
  | [], m =>
    match m with
    | some x => .found x
    | none => .missing
  | x :: rest, m =>
    if x.name = id then .found x
    else if id <:+: x.name then
      match m with
      | some _ => .multiple
      | none => lookGo id rest (some x)
    else lookGo id rest m

/-- Embedding of `look(id, runs)` from `runce/utils.py`: first exact match
wins immediately; otherwise a unique partial match is returned, two partial
matches return `False`, none returns `None`. -/
def look (id : List Char) (runs : List Entry) : LookRes := lookGo id runs none

/-- Python `dict` key insertion order for `dict([(id, ...) for id in ids])`:
first occurrence of each id is kept. -/
def dedupIds (ids : List (List Char)) : List (List Char) :=
  ids.foldl (fun acc id => if id ∈ acc then acc else acc ++ [id]) []

/-- The `map_ids` dictionary of `look_multiple` right after initialization:
every id maps to an empty exact list and an empty partial list. -/
def initMap (ids : List (List Char)) : List (List Char × (List Entry × List Entry)) :=
  (dedupIds ids).map (fun id => (id, ([], [])))

/-- The body of `look_multiple`'s scan: classify one record `item` into one
entry of `map_ids` (exact match appended, else substring match appended). -/
def updateEntry (item : Entry) (e : List Char × (List Entry × List Entry)) :
    List Char × (List Entry × List Entry) :=
  if item.name = e.1 then (e.1, (e.2.1 ++ [item], e.2.2))
  else if e.1 <:+: item.name then (e.1, (e.2.1, e.2.2 ++ [item]))
  else e

/-- The `map_ids` dictionary after the single pass over `runs`. -/
def buildMap (ids : List (List Char)) (runs : List Entry) :
    List (List Char × (List Entry × List Entry)) :=
  runs.foldl (fun m item => m.map (updateEntry item)) (initMap ids)

/-- What `look_multiple` does for one id: yield a record, invoke
`ambiguous(id)`, or invoke `not_found(id)`. -/
inductive Outcome where
  | yielded : List Char → Entry → Outcome
  | ambiguous : List Char → Outcome
  | notFound : List Char → Outcome
deriving DecidableEq

/-- The id an outcome belongs to. -/
def outcomeId : Outcome → List Char
  | .yielded id _ => id
  | .ambiguous id => id
  | .notFound id => id

/-- The final loop of `look_multiple` on one `map_ids` entry: more than one
exact match is ambiguous, one is yielded; else same for partial matches;
else the id is not found. -/
def entryOutcome : List Char × (List Entry × List Entry) → Outcome
  | (id, (e, p)) =>
    match e with
    | _ :: _ :: _ => .ambiguous id
    | [x] => .yielded id x
    | [] =>
      match p with
      | _ :: _ :: _ => .ambiguous id
      | [x] => .yielded id x
      | [] => .notFound id

/-- Embedding of `look_multiple(ids, runs, ambiguous, not_found)` from
`runce/utils.py` as the per-id sequence of outcomes. -/
def look_multiple (ids : List (List Char)) (runs : List Entry) : List Outcome :=
  (buildMap ids runs).map entryOutcome

/-- The records of `runs` whose name equals `id` (in scan order). -/
def exactMatches (id : List Char) (runs : List Entry) : List Entry :=
  runs.filter (fun x => x.name == id)

/-- The records of `runs` whose name merely contains `id` (in scan order). -/
def substrMatches (id : List Char) (runs : List Entry) : List Entry :=
  runs.filter (fun x => !(x.name == id) && decide (id <:+: x.name))

/-! ## The registry store and `Spawn.spawn` (`runce/spawn.py`)

The registry directory is a partial map from path (character list) to file
data.  `Popen` is modelled by appending the launched command to a log of
launches and taking the new pid, start time and uuid as oracle parameters;
directory creation (`mkdir`, `ensure_data_dir`) has no observable effect in
this model.  Python's `open(path, "x")` fails iff the path is present;
`open(path, "w")` truncates or creates; both leave a zero-byte file until
something is written. -/

/-- The fields of the `process_info` dictionary persisted by `spawn`. -/
structure RecInfo where
  out : List Char
  err : List Char
  cmd : List (List Char)
  name : List Char
  started : Nat
  uuid : List Char
  pid : Nat
deriving DecidableEq

/-- Contents of one registry-directory file. -/
inductive FData where
  | bytes : List Nat → FData
  | record : RecInfo → FData
deriving DecidableEq

/-- The registry directory: path to file contents. -/
def FS : Type := List Char → Option FData

/-- The observable world of `spawn`: the directory plus the commands handed
to `Popen`, in order. -/
structure World where
  fs : FS
  launched : List (List (List Char))

/-- Write (create or replace) one file. -/
def fsWrite (fs : FS) (p : List Char) (d : FData) : FS :=
  fun q => if q = p then some d else fs q

/-- `spawn` can only fail by `FileExistsError` on an exclusive create. -/
inductive SpawnErr where
  | fileExists : List Char → SpawnErr
deriving DecidableEq

/-- `path.open(mode + "b")` for an output file: `"w"` truncates or creates
unconditionally, `"x"` fails if the file exists. -/
def openLog (overwrite : Bool) (w : World) (p : List Char) : Except SpawnErr World :=
  if overwrite then .ok { w with fs := fsWrite w.fs p (.bytes []) }
  else
    match w.fs p with
    | some _ => .error (.fileExists p)
    | none => .ok { w with fs := fsWrite w.fs p (.bytes []) }

/-- The `.run.json` suffix of backing files. -/
def runJsonSuffix : List Char := ['.', 'r', 'u', 'n', '.', 'j', 's', 'o', 'n']

/-- `data_dir / f"{base_name}.run.json"`. -/
def runFilePath (dataDir name : List Char) : List Char :=
  dataDir ++ '/' :: (get_base_name name ++ runJsonSuffix)

/-- The path `spawn` opens for stdout: `out_file` when given, else the
default merged log `{base}.log` or split log `{base}.out.log`. -/
def stdoutPath (dataDir name outFile : List Char) (merged : Bool) : List Char :=
  if outFile = [] then
    dataDir ++ '/' :: (get_base_name name ++
      (if merged then ['.', 'l', 'o', 'g']
       else ['.', 'o', 'u', 't', '.', 'l', 'o', 'g']))
  else outFile

/-- The path `spawn` opens for stderr in split mode: `err_file` when given,
else `{base}.err.log`. -/
def stderrPath (dataDir name errFile : List Char) : List Char :=
  if errFile = [] then
    dataDir ++ '/' :: (get_base_name name ++ ['.', 'e', 'r', 'r', '.', 'l', 'o', 'g'])
  else errFile

/-- Embedding of `Spawn.spawn` from `runce/spawn.py`.  Step order follows the
source: open the stdout file (mode `"x"` unless `overwrite`), in split mode
also the stderr file, then `Popen(cmd)` (the launch), then open the record
file `{base}.run.json` in the same mode and dump the record.  The world as
modified so far is returned even on failure. -/
def spawn (dataDir : List Char) (w : World) (cmd0 : List (List Char))
    (name : List Char) (merged_output overwrite : Bool)
    (out_file err_file : List Char) (newPid started : Nat) (uuid : List Char) :
    World × Except SpawnErr RecInfo :=
  let run_file := runFilePath dataDir name
  let cmd := if cmd0 = [] then [['s', 'h']] else cmd0
  let so := stdoutPath dataDir name out_file merged_output
  let se := if merged_output then so else stderrPath dataDir name err_file
  match openLog overwrite w so with
  | .error e => (w, .error e)
  | .ok w1 =>
    match (if merged_output then .ok w1 else openLog overwrite w1 se :
        Except SpawnErr World) with
    | .error e => (w1, .error e)
    | .ok w2 =>
      let info : RecInfo := ⟨so, se, cmd, name, started, uuid, newPid⟩
      let w3 : World := { w2 with launched := w2.launched ++ [cmd] }
      if overwrite then
        ({ w3 with fs := fsWrite w3.fs run_file (.record info) }, .ok info)
      else
        match w3.fs run_file with
        | some _ => (w3, .error (.fileExists run_file))
        | none => ({ w3 with fs := fsWrite w3.fs run_file (.record info) }, .ok info)

/-! ## `Kill.start` (`runce/cli.py`)

`find_names` and `drop` are not part of the supplied sources (only their
call sites are); the record list handed to the loop is the sequence of
records resolved by `look_multiple` (§4.3 of the design), and `drop` removes
the record's backing file (§4.2).  What the loop itself does to one resolved
record is embedded here: `getpgid`/`killpg` are oracle functions returning
either success, `ProcessLookupError`, or another `OSError` such as
permission denied. -/

/-- OS-level failures of `getpgid`/`killpg`. -/
inductive OsErr where
  | processLookup : OsErr
  | permission : OsErr
deriving DecidableEq

/-- Oracles for `os.getpgid(pid)` and `os.killpg(pgid, SIGTERM)`. -/
structure KillEnv where
  pgidOf : Nat → Except OsErr Nat
  killResult : Nat → Except OsErr Unit

/-- The status marker printed for one record. -/
inductive Pref where
  | killed : Pref
  | notFound : Pref
  | error : Pref
deriving DecidableEq

/-- What one iteration of the `Kill.start` loop did to its record. -/
structure StepResult where
  pref : Pref
  dropped : Bool
  raised : Option OsErr
deriving DecidableEq

/-- One iteration of the `Kill.start` loop: the `try` body resolves the
process group and (unless dry-run) signals it; `except ProcessLookupError`
turns that error into the Not-found marker; the `finally` block prints the
marker and, when not dry-run and `--remove` is set, drops the record —
whatever the outcome; any other `OSError` then propagates. -/
def killStep (env : KillEnv) (dryRun remove : Bool) (x : RecInfo) : StepResult :=
  let bodyRes : Except OsErr Pref :=
    match env.pgidOf x.pid with
    | .error e => .error e
    | .ok pgid =>
      if dryRun then .ok .killed
      else
        match env.killResult pgid with
        | .error e => .error e
        | .ok _ => .ok .killed
  match bodyRes with
  | .ok p => ⟨p, !dryRun && remove, none⟩
  | .error .processLookup => ⟨.notFound, !dryRun && remove, none⟩
  | .error e => ⟨.error, !dryRun && remove, some e⟩

/-- The `Kill.start` loop over the resolved records: an uncaught exception
from one iteration propagates and ends the loop. -/
def killBatch (env : KillEnv) (dryRun remove : Bool) : List RecInfo → List StepResult
  | [] => []
  | x :: rest =>
    let r := killStep env dryRun remove x
    match r.raised with
    | some _ => [r]
    | none => r :: killBatch env dryRun remove rest

/-! ## Registry enumeration `Spawn.all` (`runce/spawn.py`)

One directory entry carries its file name (within the data directory),
whether it is a regular file, and its raw bytes (`st_size` is the byte
count).  `json.load` is external; it is a parameter `parse`, and a parse
failure (`None`) is the logged-and-skipped branch. -/

/-- A directory entry as `data_dir.iterdir()` yields it. -/
structure DirEntry where
  fname : List Char
  isFile : Bool
  content : List Nat
deriving DecidableEq

/-- Embedding of `Spawn.all`: keep regular files named `*.run.json` with
nonzero size, parse each, skip parse failures, and yield the parsed record
together with the backing path stored into its `file` field. -/
def allRecords (parse : List Nat → Option RecInfo) (dataDir : List Char) :
    List DirEntry → List (RecInfo × List Char)
  | [] => []
  | e :: rest =>
    if e.isFile = true ∧ runJsonSuffix <:+ e.fname ∧ 0 < e.content.length then
      match parse e.content with
      | some d => (d, dataDir ++ '/' :: e.fname) :: allRecords parse dataDir rest
      | none => allRecords parse dataDir rest
    else allRecords parse dataDir rest

end Runce

namespace Runce

theorem md5digest_length (msg : List Nat) : (md5digest msg).length = 16 := by
  simp [md5digest, le4]

theorem flatMap_byteHex_length (l : List Nat) :
    (l.flatMap byteHex).length = 2 * l.length := by
  induction l with
  | nil => simp
  | cons x xs ih => simp [byteHex, ih]; ring

theorem md5hexdigest_length (msg : List Nat) : (md5hexdigest msg).length = 32 := by
  rw [md5hexdigest, flatMap_byteHex_length, md5digest_length]

theorem getD_mem {α : Type} (l : List α) (d : α) (i : Nat) (hd : d ∈ l) :
    l.getD i d ∈ l := by
  rw [List.getD_eq_getElem?_getD]
  rcases h : l[i]? with _ | x
  · simpa using hd
  · simpa using List.getElem?_mem h

theorem byteHex_mem (b : Nat) : ∀ c ∈ byteHex b, c ∈ hexDigits := by
  intro c hc
  simp only [byteHex, List.mem_cons, List.not_mem_nil, or_false] at hc
  rcases hc with h | h <;> subst h <;> exact getD_mem _ _ _ (by decide)

theorem md5hexdigest_mem (msg : List Nat) : ∀ c ∈ md5hexdigest msg, c ∈ hexDigits := by
  intro c hc
  simp only [md5hexdigest, List.mem_flatMap] at hc
  obtain ⟨b, _, hb⟩ := hc
  exact byteHex_mem b c hb

theorem sub1Go_chars (l : List Char) :
    ∀ inRun, ∀ c ∈ sub1Go inRun l, slugChar c = true := by
  induction l with
  | nil => intro inRun c hc; simp [sub1Go] at hc
  | cons x xs ih =>
    intro inRun c hc
    by_cases h : slugChar x
    · simp only [sub1Go, if_pos h, List.mem_cons] at hc
      rcases hc with rfl | hc
      · exact h
      · exact ih false c hc
    · cases inRun
      · simp only [sub1Go, if_neg h, if_neg (Bool.false_ne_true), List.mem_cons] at hc
        rcases hc with rfl | hc
        · decide
        · exact ih true c hc
      · simp only [sub1Go, if_neg h, if_pos rfl] at hc
        exact ih true c hc

theorem sub2Go_chars (l : List Char) (hl : ∀ c ∈ l, slugChar c = true) :
    ∀ inRun, ∀ c ∈ sub2Go inRun l, slugChar c = true := by
  induction l with
  | nil => intro inRun c hc; simp [sub2Go] at hc
  | cons x xs ih =>
    intro inRun c hc
    have hxs : ∀ c ∈ xs, slugChar c = true := fun c hc => hl c (List.mem_cons_of_mem _ hc)
    by_cases h : dashChar x
    · cases inRun
      · simp only [sub2Go, if_pos h, if_neg (Bool.false_ne_true), List.mem_cons] at hc
        rcases hc with rfl | hc
        · decide
        · exact ih hxs true c hc
      · simp only [sub2Go, if_pos h, if_pos rfl] at hc
        exact ih hxs true c hc
    · simp only [sub2Go, if_neg h, List.mem_cons] at hc
      rcases hc with rfl | hc
      · exact hl c (List.mem_cons_self _ _)
      · exact ih hxs false c hc

theorem stripUnderscore_subset (l : List Char) :
    ∀ c ∈ stripUnderscore l, c ∈ l := by
  intro c hc
  simp only [stripUnderscore, List.mem_reverse] at hc
  have h1 := (List.dropWhile_sublist (l := (l.dropWhile (· == '_')).reverse)
    (p := (· == '_'))).mem hc
  rw [List.mem_reverse] at h1
  exact (List.dropWhile_sublist (p := (· == '_'))).mem h1

theorem slugify_chars (name : List Char) :
    ∀ c ∈ slugify name, slugChar c = true := by
  intro c hc
  have h1 := stripUnderscore_subset _ c hc
  exact sub2Go_chars _ (fun c hc => sub1Go_chars _ false c hc) false c h1

theorem hexDigits_slug : ∀ c ∈ hexDigits, slugChar c = true := by decide

theorem get_base_name_chars (name : List Char) :
    ∀ c ∈ get_base_name name, slugChar c = true := by
  intro c hc
  simp only [get_base_name, List.mem_append, List.mem_cons] at hc
  rcases hc with hc | rfl | hc
  · exact slugify_chars name c (List.mem_of_mem_take hc)
  · decide
  · exact hexDigits_slug c (md5hexdigest_mem _ c (List.mem_of_mem_take hc))

theorem foldl_map_comm {α β : Type} (f : β → α → α) (runs : List β) (m : List α) :
    runs.foldl (fun m item => m.map (f item)) m =
      m.map (fun e => runs.foldl (fun e item => f item e) e) := by
  induction runs generalizing m with
  | nil => simp
  | cons x rest ih =>
    simp only [List.foldl_cons]
    rw [ih, List.map_map]
    rfl

theorem foldl_updateEntry (id : List Char) (runs : List Entry) :
    ∀ ex pa, runs.foldl (fun e item => updateEntry item e) (id, (ex, pa)) =
      (id, (ex ++ exactMatches id runs, pa ++ substrMatches id runs)) := by
  induction runs with
  | nil => intro ex pa; simp [exactMatches, substrMatches]
  | cons x rest ih =>
    intro ex pa
    simp only [List.foldl_cons]
    by_cases h1 : x.name = id
    · rw [show updateEntry x (id, (ex, pa)) = (id, (ex ++ [x], pa)) by
        simp [updateEntry, h1]]
      rw [ih]
      simp [exactMatches, substrMatches, List.filter_cons, h1]
    · by_cases h2 : id <:+: x.name
      · rw [show updateEntry x (id, (ex, pa)) = (id, (ex, pa ++ [x])) by
          simp [updateEntry, h1, h2]]
        rw [ih]
        simp [exactMatches, substrMatches, List.filter_cons, h1, h2]
      · rw [show updateEntry x (id, (ex, pa)) = (id, (ex, pa)) by
          simp [updateEntry, h1, h2]]
        rw [ih]
        simp [exactMatches, substrMatches, List.filter_cons, h1, h2]

theorem buildMap_eq (ids : List (List Char)) (runs : List Entry) :
    buildMap ids runs = (dedupIds ids).map
      (fun id => (id, (exactMatches id runs, substrMatches id runs))) := by
  rw [buildMap, initMap, foldl_map_comm, List.map_map]
  refine List.map_congr_left fun id _ => ?_
  simpa using foldl_updateEntry id runs [] []

theorem look_multiple_eq (ids : List (List Char)) (runs : List Entry) :
    look_multiple ids runs = (dedupIds ids).map
      (fun id => entryOutcome (id, (exactMatches id runs, substrMatches id runs))) := by
  rw [look_multiple, buildMap_eq, List.map_map]
  rfl

theorem outcomeId_entryOutcome (id : List Char) (ep : List Entry × List Entry) :
    outcomeId (entryOutcome (id, ep)) = id := by
  obtain ⟨e, p⟩ := ep
  rcases e with _ | ⟨x, _ | ⟨y, e⟩⟩ <;>
    rcases p with _ | ⟨a, _ | ⟨b, p⟩⟩ <;> rfl

theorem mem_dedup_aux (x : List Char) : ∀ (ids acc : List (List Char)),
    (x ∈ ids.foldl (fun acc id => if id ∈ acc then acc else acc ++ [id]) acc) ↔
      x ∈ acc ∨ x ∈ ids := by
  intro ids
  induction ids with
  | nil => intro acc; simp
  | cons y rest ih =>
    intro acc
    simp only [List.foldl_cons]
    rw [ih]
    by_cases h : y ∈ acc
    · simp only [if_pos h, List.mem_cons]
      constructor
      · rintro (hx | hx)
        · exact Or.inl hx
        · exact Or.inr (Or.inr hx)
      · rintro (hx | rfl | hx)
        · exact Or.inl hx
        · exact Or.inl h
        · exact Or.inr hx
    · simp only [if_neg h, List.mem_append, List.mem_singleton, List.mem_cons]
      tauto

theorem mem_dedupIds (id : List Char) (ids : List (List Char)) :
    id ∈ dedupIds ids ↔ id ∈ ids := by
  rw [dedupIds]
  simpa using mem_dedup_aux id ids []

theorem lookGo_found (id : List Char) (runs : List Entry) :
    ∀ (m : Option Entry), (∀ x, m = some x → id <:+: x.name) →
      ∀ r, lookGo id runs m = .found r → r.name = id ∨ id <:+: r.name := by
  induction runs with
  | nil =>
    intro m hm r h
    rcases m with _ | x
    · simp [lookGo] at h
    · simp only [lookGo] at h
      injection h with h4
      exact Or.inr (h4 ▸ hm x rfl)
  | cons x rest ih =>
    intro m hm r h
    by_cases h1 : x.name = id
    · simp only [lookGo, if_pos h1] at h
      cases h
      exact Or.inl h1
    · by_cases h2 : id <:+: x.name
      · rcases m with _ | y
        · simp only [lookGo, if_neg h1, if_pos h2] at h
          exact ih (some x) (fun z hz => by cases hz; exact h2) r h
        · simp only [lookGo, if_neg h1, if_pos h2] at h
          exact absurd h (by simp)
      · simp only [lookGo, if_neg h1, if_neg h2] at h
        exact ih m hm r h

theorem openLog_false_cases (w : World) (p : List Char) :
    (∃ d, w.fs p = some d ∧ openLog false w p = .error (.fileExists p)) ∨
    (w.fs p = none ∧
      openLog false w p = .ok { w with fs := fsWrite w.fs p (.bytes []) }) := by
  rcases hp : w.fs p with _ | d
  · right
    refine ⟨rfl, ?_⟩
    simp [openLog, hp]
  · left
    exact ⟨d, rfl, by simp [openLog, hp]⟩

theorem fsWrite_preserve (fs : FS) (p : List Char) (d0 : FData) (q : List Char)
    (d : FData) (hq : fs q = some d) (hp : fs p = none) :
    fsWrite fs p d0 q = some d := by
  rw [fsWrite]
  by_cases hqp : q = p
  · subst hqp
    rw [hq] at hp
    cases hp
  · simp [hqp, hq]

theorem fsWrite_none {fs : FS} {p q : List Char} {d : FData}
    (h : fsWrite fs p d q = none) : fs q = none := by
  rw [fsWrite] at h
  by_cases hqp : q = p
  · simp [hqp] at h
  · simpa [hqp] using h

end Runce

/-- C9: `get_base_name` is a pure deterministic function of the name; its
value is the slug of the name truncated to at most 24 characters, an
underscore, and the first 24 lowercase hex digits of the MD5 of the UTF-8
encoded name; hence its length is at most 49 and every character of it is
filesystem-safe (drawn from `[a-zA-Z0-9_.+-]`). -/
theorem C9_get_base_name_deterministic_shape (n1 n2 : List Char) (heq : n1 = n2) :
    Runce.get_base_name n1 = Runce.get_base_name n2 ∧
    Runce.get_base_name n1 =
      (Runce.slugify n1).take 24 ++
        '_' :: (Runce.md5hexdigest (Runce.strEncode n1)).take 24 ∧
    ((Runce.md5hexdigest (Runce.strEncode n1)).take 24).length = 24 ∧
    (∀ c ∈ (Runce.md5hexdigest (Runce.strEncode n1)).take 24, c ∈ Runce.hexDigits) ∧
    (Runce.get_base_name n1).length ≤ 49 ∧
    (∀ c ∈ Runce.get_base_name n1, Runce.slugChar c = true) := by
  subst heq
  refine ⟨rfl, rfl, ?_, ?_, ?_, Runce.get_base_name_chars n1⟩
  · simp [Runce.md5hexdigest_length]
  · intro c hc
    exact Runce.md5hexdigest_mem _ c (List.mem_of_mem_take hc)
  · have h24 : ((Runce.md5hexdigest (Runce.strEncode n1)).take 24).length = 24 := by
      simp [Runce.md5hexdigest_length]
    simp only [Runce.get_base_name, List.length_append, List.length_cons, h24]
    have := List.length_take_le 24 (Runce.slugify n1)
    omega

/-- Witness for C9 at the concrete name `"test"`. -/
theorem C9_witness :
    Runce.get_base_name ['t', 'e', 's', 't'] = Runce.get_base_name ['t', 'e', 's', 't'] ∧
    Runce.get_base_name ['t', 'e', 's', 't'] =
      (Runce.slugify ['t', 'e', 's', 't']).take 24 ++
        '_' :: (Runce.md5hexdigest (Runce.strEncode ['t', 'e', 's', 't'])).take 24 ∧
    ((Runce.md5hexdigest (Runce.strEncode ['t', 'e', 's', 't'])).take 24).length = 24 ∧
    (∀ c ∈ (Runce.md5hexdigest (Runce.strEncode ['t', 'e', 's', 't'])).take 24,
      c ∈ Runce.hexDigits) ∧
    (Runce.get_base_name ['t', 'e', 's', 't']).length ≤ 49 ∧
    (∀ c ∈ Runce.get_base_name ['t', 'e', 's', 't'], Runce.slugChar c = true) :=
  C9_get_base_name_deterministic_shape ['t', 'e', 's', 't'] ['t', 'e', 's', 't'] rfl

/-- C1: `tail_file` is claimed to agree with the full-read reference for every
file and every `n ≥ 1`, including files ending in a trailing newline.  It does
not: on the file `"a\nb\nc\nd\ne\n"` with `n = 3` the backward scan counts the
trailing newline as one of the `3`, so `tail_file` returns only the last two
lines `["d", "e"]` while the reference (and Unix `tail`, which the docstring
promises) returns `["c", "d", "e"]`. -/
theorem C1_tail_file_trailing_newline_bug :
    Runce.tail_file [97, 10, 98, 10, 99, 10, 100, 10, 101, 10] 3 = [[100], [101]] ∧
    Runce.tailRef [97, 10, 98, 10, 99, 10, 100, 10, 101, 10] 3 = [[99], [100], [101]] ∧
    Runce.tail_file [97, 10, 98, 10, 99, 10, 100, 10, 101, 10] 3 ≠
      Runce.tailRef [97, 10, 98, 10, 99, 10, 100, 10, 101, 10] 3 := by
  refine ⟨by decide, by decide, by decide⟩

/-- C4: if exactly one record's name equals the id exactly, `look_multiple`
yields that record for the id — and nothing else for that id — no matter how
many other records contain the id as a substring. -/
theorem C4_look_multiple_exact_priority (ids : List (List Char))
    (runs : List Runce.Entry) (id : List Char) (r : Runce.Entry)
    (hid : id ∈ ids) (hx : Runce.exactMatches id runs = [r]) :
    Runce.Outcome.yielded id r ∈ Runce.look_multiple ids runs ∧
    ∀ o ∈ Runce.look_multiple ids runs,
      Runce.outcomeId o = id → o = Runce.Outcome.yielded id r := by
  have hmem : id ∈ Runce.dedupIds ids := (Runce.mem_dedupIds id ids).mpr hid
  rw [Runce.look_multiple_eq]
  constructor
  · refine List.mem_map.mpr ⟨id, hmem, ?_⟩
    rw [hx]
    rfl
  · intro o ho hoid
    obtain ⟨id2, hid2, rfl⟩ := List.mem_map.mp ho
    have hid2eq : id2 = id := by
      have h3 := Runce.outcomeId_entryOutcome id2
        (Runce.exactMatches id2 runs, Runce.substrMatches id2 runs)
      rw [hoid] at h3
      exact h3.symm
    rw [hid2eq, hx]
    rfl

/-- Witness for C4: records named `"apple"` and `"app"`, identifier `"app"`;
the exact record `"app"` is yielded, not `"apple"`. -/
theorem C4_witness :
    Runce.Outcome.yielded ['a', 'p', 'p'] ⟨['a', 'p', 'p'], 1⟩ ∈
      Runce.look_multiple [['a', 'p', 'p']]
        [⟨['a', 'p', 'p', 'l', 'e'], 0⟩, ⟨['a', 'p', 'p'], 1⟩] ∧
    ∀ o ∈ Runce.look_multiple [['a', 'p', 'p']]
        [⟨['a', 'p', 'p', 'l', 'e'], 0⟩, ⟨['a', 'p', 'p'], 1⟩],
      Runce.outcomeId o = ['a', 'p', 'p'] →
        o = Runce.Outcome.yielded ['a', 'p', 'p'] ⟨['a', 'p', 'p'], 1⟩ :=
  C4_look_multiple_exact_priority [['a', 'p', 'p']]
    [⟨['a', 'p', 'p', 'l', 'e'], 0⟩, ⟨['a', 'p', 'p'], 1⟩]
    ['a', 'p', 'p'] ⟨['a', 'p', 'p'], 1⟩ (by decide) (by decide)

/-- C5: for an id with no exact match, two or more substring matches produce
`ambiguous(id)` and no yielded record, no match at all produces
`not_found(id)` and no yielded record, and in every case each requested id
still receives an outcome (resolution of the other ids is not aborted). -/
theorem C5_look_multiple_ambiguous_notfound (ids : List (List Char))
    (runs : List Runce.Entry) (id : List Char) (hid : id ∈ ids)
    (hx : Runce.exactMatches id runs = []) :
    (2 ≤ (Runce.substrMatches id runs).length →
      Runce.Outcome.ambiguous id ∈ Runce.look_multiple ids runs ∧
      ∀ r, Runce.Outcome.yielded id r ∉ Runce.look_multiple ids runs) ∧
    (Runce.substrMatches id runs = [] →
      Runce.Outcome.notFound id ∈ Runce.look_multiple ids runs ∧
      ∀ r, Runce.Outcome.yielded id r ∉ Runce.look_multiple ids runs) ∧
    (∀ id2 ∈ ids, ∃ o ∈ Runce.look_multiple ids runs, Runce.outcomeId o = id2) := by
  have hmem : id ∈ Runce.dedupIds ids := (Runce.mem_dedupIds id ids).mpr hid
  rw [Runce.look_multiple_eq]
  refine ⟨fun hlen => ⟨?_, ?_⟩, fun hnil => ⟨?_, ?_⟩, fun id2 hid2 => ?_⟩
  · refine List.mem_map.mpr ⟨id, hmem, ?_⟩
    rw [hx]
    rcases hp : Runce.substrMatches id runs with _ | ⟨a, _ | ⟨b, p⟩⟩
    · rw [hp] at hlen; simp at hlen
    · rw [hp] at hlen; simp at hlen
    · rfl
  · intro r hr
    obtain ⟨id2, hid2, heq⟩ := List.mem_map.mp hr
    have hid2eq : id2 = id := by
      have h3 := Runce.outcomeId_entryOutcome id2
        (Runce.exactMatches id2 runs, Runce.substrMatches id2 runs)
      rw [heq] at h3
      exact h3.symm
    rw [hid2eq, hx] at heq
    rcases hp : Runce.substrMatches id runs with _ | ⟨a, _ | ⟨b, p⟩⟩ <;>
        rw [hp] at heq
    · rw [hp] at hlen; simp at hlen
    · rw [hp] at hlen; simp at hlen
    · exact Runce.Outcome.noConfusion heq
  · refine List.mem_map.mpr ⟨id, hmem, ?_⟩
    rw [hx, hnil]
    rfl
  · intro r hr
    obtain ⟨id2, hid2, heq⟩ := List.mem_map.mp hr
    have hid2eq : id2 = id := by
      have h3 := Runce.outcomeId_entryOutcome id2
        (Runce.exactMatches id2 runs, Runce.substrMatches id2 runs)
      rw [heq] at h3
      exact h3.symm
    rw [hid2eq, hx, hnil] at heq
    exact Runce.Outcome.noConfusion heq
  · refine ⟨Runce.entryOutcome
      (id2, (Runce.exactMatches id2 runs, Runce.substrMatches id2 runs)), ?_, ?_⟩
    · exact List.mem_map.mpr ⟨id2, (Runce.mem_dedupIds id2 ids).mpr hid2, rfl⟩
    · exact Runce.outcomeId_entryOutcome id2 _

/-- Witness for C5: records `"apple"` and `"appliance"`, identifiers
`["app", "zzz"]`; `"app"` is ambiguous and yields nothing, `"zzz"` matches
nothing, and both ids receive an outcome. -/
theorem C5_witness :
    (2 ≤ (Runce.substrMatches ['a', 'p', 'p']
        [⟨['a', 'p', 'p', 'l', 'e'], 0⟩,
         ⟨['a', 'p', 'p', 'l', 'i', 'a', 'n', 'c', 'e'], 1⟩]).length →
      Runce.Outcome.ambiguous ['a', 'p', 'p'] ∈
        Runce.look_multiple [['a', 'p', 'p'], ['z', 'z', 'z']]
          [⟨['a', 'p', 'p', 'l', 'e'], 0⟩,
           ⟨['a', 'p', 'p', 'l', 'i', 'a', 'n', 'c', 'e'], 1⟩] ∧
      ∀ r, Runce.Outcome.yielded ['a', 'p', 'p'] r ∉
        Runce.look_multiple [['a', 'p', 'p'], ['z', 'z', 'z']]
          [⟨['a', 'p', 'p', 'l', 'e'], 0⟩,
           ⟨['a', 'p', 'p', 'l', 'i', 'a', 'n', 'c', 'e'], 1⟩]) ∧
    (Runce.substrMatches ['a', 'p', 'p']
        [⟨['a', 'p', 'p', 'l', 'e'], 0⟩,
         ⟨['a', 'p', 'p', 'l', 'i', 'a', 'n', 'c', 'e'], 1⟩] = [] →
      Runce.Outcome.notFound ['a', 'p', 'p'] ∈
        Runce.look_multiple [['a', 'p', 'p'], ['z', 'z', 'z']]
          [⟨['a', 'p', 'p', 'l', 'e'], 0⟩,
           ⟨['a', 'p', 'p', 'l', 'i', 'a', 'n', 'c', 'e'], 1⟩] ∧
      ∀ r, Runce.Outcome.yielded ['a', 'p', 'p'] r ∉
        Runce.look_multiple [['a', 'p', 'p'], ['z', 'z', 'z']]
          [⟨['a', 'p', 'p', 'l', 'e'], 0⟩,
           ⟨['a', 'p', 'p', 'l', 'i', 'a', 'n', 'c', 'e'], 1⟩]) ∧
    (∀ id2 ∈ [['a', 'p', 'p'], ['z', 'z', 'z']],
      ∃ o ∈ Runce.look_multiple [['a', 'p', 'p'], ['z', 'z', 'z']]
          [⟨['a', 'p', 'p', 'l', 'e'], 0⟩,
           ⟨['a', 'p', 'p', 'l', 'i', 'a', 'n', 'c', 'e'], 1⟩],
        Runce.outcomeId o = id2) :=
  C5_look_multiple_ambiguous_notfound [['a', 'p', 'p'], ['z', 'z', 'z']]
    [⟨['a', 'p', 'p', 'l', 'e'], 0⟩,
     ⟨['a', 'p', 'p', 'l', 'i', 'a', 'n', 'c', 'e'], 1⟩]
    ['a', 'p', 'p'] (by decide) (by decide)

/-- C8 counterexample: `look` does fall back to substring matching (its own
docstring says "Find by 'name' or partial match"): with a single record named
`"apple"`, looking up `"app"` returns the `"apple"` record although the names
differ, refuting "returns a record only when that record's name equals the
queried name exactly". -/
theorem C8_counterexample_substring_return :
    Runce.look ['a', 'p', 'p'] [⟨['a', 'p', 'p', 'l', 'e'], 0⟩] =
      Runce.LookRes.found ⟨['a', 'p', 'p', 'l', 'e'], 0⟩ ∧
    (⟨['a', 'p', 'p', 'l', 'e'], 0⟩ : Runce.Entry).name ≠ ['a', 'p', 'p'] :=
  ⟨by decide, by decide⟩

/-- C8 amended: `look` returns a record only when that record's name equals
the queried name exactly, or when the queried name occurs in the record's
name as a substring (the unique-partial-match fallback of the code). -/
theorem C8_look_exact_or_substring (id : List Char) (runs : List Runce.Entry)
    (r : Runce.Entry) (h : Runce.look id runs = Runce.LookRes.found r) :
    r.name = id ∨ id <:+: r.name :=
  Runce.lookGo_found id runs none (fun z hz => Option.noConfusion hz) r h

/-- Witness for the amended C8 at a concrete exact lookup. -/
theorem C8_witness :
    (⟨['a', 'p', 'p'], 0⟩ : Runce.Entry).name = ['a', 'p', 'p'] ∨
      ['a', 'p', 'p'] <:+: (⟨['a', 'p', 'p'], 0⟩ : Runce.Entry).name :=
  C8_look_exact_or_substring ['a', 'p', 'p'] [⟨['a', 'p', 'p'], 0⟩]
    ⟨['a', 'p', 'p'], 0⟩ (by decide)

/-- C2: with `overwrite = false`, a `spawn` under a name whose record file
already exists fails with a file-already-exists error, and every file that
existed before the call — in particular the first record with its `pid` and
`started` fields — is left exactly as it was: exclusive creates never
truncate or replace. -/
theorem C2_spawn_already_exists_preserves_record (dataDir : List Char)
    (w : Runce.World) (cmd0 : List (List Char)) (name : List Char)
    (merged : Bool) (out_file err_file : List Char)
    (newPid started : Nat) (uuid : List Char) (c : Runce.FData)
    (hrec : w.fs (Runce.runFilePath dataDir name) = some c) :
    (∃ p, (Runce.spawn dataDir w cmd0 name merged false out_file err_file
        newPid started uuid).2 = Except.error (Runce.SpawnErr.fileExists p)) ∧
    ∀ q d, w.fs q = some d →
      (Runce.spawn dataDir w cmd0 name merged false out_file err_file
        newPid started uuid).1.fs q = some d := by
  cases merged
  · rcases Runce.openLog_false_cases w (Runce.stdoutPath dataDir name out_file false)
      with ⟨d1, hd1, herr⟩ | ⟨hnone1, hok1⟩
    · constructor
      · refine ⟨Runce.stdoutPath dataDir name out_file false, ?_⟩
        simp [Runce.spawn, herr]
      · intro q d hq
        simp only [Runce.spawn, herr]
        exact hq
    · rcases Runce.openLog_false_cases ({ w with fs := Runce.fsWrite w.fs (Runce.stdoutPath dataDir name out_file false) (.bytes []) }) (Runce.stderrPath dataDir name err_file)
        with ⟨d2, hd2, herr2⟩ | ⟨hnone2, hok2⟩
      · constructor
        · refine ⟨Runce.stderrPath dataDir name err_file, ?_⟩
          simp [Runce.spawn, hok1, herr2]
        · intro q d hq
          simp only [Runce.spawn, hok1, Bool.false_eq_true, if_false, herr2]
          exact Runce.fsWrite_preserve _ _ _ _ _ hq hnone1
      · rcases hv : Runce.fsWrite (Runce.fsWrite w.fs (Runce.stdoutPath dataDir name out_file false) (.bytes [])) (Runce.stderrPath dataDir name err_file) (.bytes []) (Runce.runFilePath dataDir name) with _ | dd
        · exact absurd hrec (by rw [Runce.fsWrite_none (Runce.fsWrite_none hv)]; simp)
        · constructor
          · refine ⟨Runce.runFilePath dataDir name, ?_⟩
            simp [Runce.spawn, hok1, hok2, hv]
          · intro q d hq
            simp only [Runce.spawn, hok1, Bool.false_eq_true, if_false, hok2, hv]
            exact Runce.fsWrite_preserve _ _ _ _ _
              (Runce.fsWrite_preserve _ _ _ _ _ hq hnone1) hnone2
  · rcases Runce.openLog_false_cases w (Runce.stdoutPath dataDir name out_file true)
      with ⟨d1, hd1, herr⟩ | ⟨hnone1, hok1⟩
    · constructor
      · refine ⟨Runce.stdoutPath dataDir name out_file true, ?_⟩
        simp [Runce.spawn, herr]
      · intro q d hq
        simp only [Runce.spawn, herr]
        exact hq
    · rcases hv : Runce.fsWrite w.fs (Runce.stdoutPath dataDir name out_file true) (.bytes []) (Runce.runFilePath dataDir name) with _ | dd
      · exact absurd hrec (by rw [Runce.fsWrite_none hv]; simp)
      · constructor
        · refine ⟨Runce.runFilePath dataDir name, ?_⟩
          simp [Runce.spawn, hok1, hv]
        · intro q d hq
          simp only [Runce.spawn, hok1, reduceIte, hv]
          exact Runce.fsWrite_preserve _ _ _ _ _ hq hnone1

/-- Witness for C2: a world holding one record for the name `"n"`; the second
spawn (merged output, default paths) fails and the record is untouched. -/
theorem C2_witness :
    (∃ p,
      (Runce.spawn ['d']
        ⟨Runce.fsWrite (fun _ => none) (Runce.runFilePath ['d'] ['n'])
          (.record ⟨[], [], [], ['n'], 5, [], 7⟩), []⟩
        [['c']] ['n'] true false [] [] 9 11 []).2 =
          Except.error (Runce.SpawnErr.fileExists p)) ∧
    ∀ q d,
      Runce.fsWrite (fun _ => none) (Runce.runFilePath ['d'] ['n'])
        (.record ⟨[], [], [], ['n'], 5, [], 7⟩) q = some d →
      (Runce.spawn ['d']
        ⟨Runce.fsWrite (fun _ => none) (Runce.runFilePath ['d'] ['n'])
          (.record ⟨[], [], [], ['n'], 5, [], 7⟩), []⟩
        [['c']] ['n'] true false [] [] 9 11 []).1.fs q = some d :=
  C2_spawn_already_exists_preserves_record ['d']
    ⟨Runce.fsWrite (fun _ => none) (Runce.runFilePath ['d'] ['n'])
      (.record ⟨[], [], [], ['n'], 5, [], 7⟩), []⟩
    [['c']] ['n'] true [] [] 9 11 []
    (.record ⟨[], [], [], ['n'], 5, [], 7⟩)
    (by simp [Runce.fsWrite])

/-- C3 counterexample: the claim says an `AlreadyExists` failure is surfaced
before the command is started.  Not always: when the record file exists but
the stdout file `spawn` opens does not (here a custom `out_file`), the log
open succeeds, `Popen` runs, and only then the exclusive create of the
record file fails — the command has been launched (`launched = [["c"]]`)
although the call reports the failure. -/
theorem C3_counterexample_launch_before_failure :
    (Runce.spawn ['d']
      ⟨(fun p => if p = ['o'] then none
          else some (.record ⟨[], [], [], ['n'], 5, [], 7⟩)), []⟩
      [['c']] ['n'] true false ['o'] [] 9 11 []).2 =
        Except.error (Runce.SpawnErr.fileExists (Runce.runFilePath ['d'] ['n'])) ∧
    (Runce.spawn ['d']
      ⟨(fun p => if p = ['o'] then none
          else some (.record ⟨[], [], [], ['n'], 5, [], 7⟩)), []⟩
      [['c']] ['n'] true false ['o'] [] 9 11 []).1.launched = [[['c']]] :=
  ⟨rfl, rfl⟩

/-- C3 amended: when the stdout file `spawn` opens already exists — which is
the state a completed prior spawn under the same name leaves behind with the
default output paths — the non-overwrite spawn fails on that very first open
and returns the world unchanged: no file is touched and no process is
launched.  (When only the record file exists, the failure still occurs but
after the launch, per `C3_counterexample_launch_before_failure`.) -/
theorem C3_spawn_fails_before_launch_when_log_exists (dataDir : List Char)
    (w : Runce.World) (cmd0 : List (List Char)) (name : List Char)
    (merged : Bool) (out_file err_file : List Char)
    (newPid started : Nat) (uuid : List Char) (d : Runce.FData)
    (hout : w.fs (Runce.stdoutPath dataDir name out_file merged) = some d) :
    Runce.spawn dataDir w cmd0 name merged false out_file err_file
        newPid started uuid =
      (w, Except.error (Runce.SpawnErr.fileExists
        (Runce.stdoutPath dataDir name out_file merged))) := by
  rcases Runce.openLog_false_cases w (Runce.stdoutPath dataDir name out_file merged)
    with ⟨d1, hd1, herr⟩ | ⟨hnone1, hok1⟩
  · cases merged <;> simp [Runce.spawn, herr]
  · rw [hout] at hnone1
    cases hnone1

/-- Witness for the amended C3: the stdout file `"o"` exists; spawn fails
with that path and changes nothing. -/
theorem C3_witness :
    Runce.spawn ['d']
        ⟨(fun p => if p = ['o'] then some (.bytes []) else none), []⟩
        [['c']] ['n'] true false ['o'] [] 9 11 [] =
      (⟨(fun p => if p = ['o'] then some (.bytes []) else none), []⟩,
        Except.error (Runce.SpawnErr.fileExists
          (Runce.stdoutPath ['d'] ['n'] ['o'] true))) :=
  C3_spawn_fails_before_launch_when_log_exists ['d']
    ⟨(fun p => if p = ['o'] then some (.bytes []) else none), []⟩
    [['c']] ['n'] true ['o'] [] 9 11 [] (.bytes []) rfl

/-- C6 counterexample: the claim says a non-ProcessLookup OS failure (e.g.
permission denied) leaves the record in place even with `--remove`.  It does
not: the `drop` sits in the `finally` block, so with `--remove` the record is
dropped (`dropped = true`) although the outcome is the Error marker and the
exception propagates. -/
theorem C6_counterexample_drop_in_finally :
    Runce.killStep ⟨fun _ => .ok 4, fun _ => .error .permission⟩ false true
        ⟨[], [], [], ['n'], 5, [], 7⟩ =
      ⟨.error, true, some .permission⟩ := rfl

/-- C6 amended: when signal delivery fails with an OS-level error other than
process-not-found, the outcome is reported as Error and the exception
propagates — but the record IS dropped whenever the remove flag is set (and
not dry-run), because the drop is executed in the `finally` block. -/
theorem C6_kill_permission_reports_error_but_drops (env : Runce.KillEnv)
    (remove : Bool) (x : Runce.RecInfo) (pgid : Nat)
    (hp : env.pgidOf x.pid = .ok pgid)
    (hk : env.killResult pgid = .error .permission) :
    Runce.killStep env false remove x =
      ⟨.error, remove, some .permission⟩ := by
  simp [Runce.killStep, hp, hk]

/-- Witness for the amended C6 at a concrete permission-denied environment. -/
theorem C6_witness :
    Runce.killStep ⟨fun _ => .ok 4, fun _ => .error .permission⟩ false false
        ⟨[], [], [], ['n'], 5, [], 7⟩ =
      ⟨.error, false, some .permission⟩ :=
  C6_kill_permission_reports_error_but_drops
    ⟨fun _ => .ok 4, fun _ => .error .permission⟩ false
    ⟨[], [], [], ['n'], 5, [], 7⟩ 4 rfl rfl

/-- C7 counterexample: the claim says one identifier's OS-level error never
prevents the remaining identifiers from being processed.  It does: a
permission-denied failure on the first record propagates out of the loop, so
of two records only one step result is produced — the second is never
attempted. -/
theorem C7_counterexample_batch_abort :
    Runce.killBatch ⟨fun _ => .ok 4, fun _ => .error .permission⟩ false false
        [⟨[], [], [], ['a'], 1, [], 1⟩, ⟨[], [], [], ['b'], 2, [], 2⟩] =
      [⟨.error, false, some .permission⟩] := rfl

/-- C7 amended: process-not-found failures are caught per record (they raise
nothing), and as long as no step raises an uncaught OS error the batch
processes every resolved record; an uncaught OS-level error (e.g. permission
denied), however, ends the loop at the failing record and the rest are not
attempted. -/
theorem C7_kill_batch_isolation (env : Runce.KillEnv) (dryRun remove : Bool)
    (xs : List Runce.RecInfo)
    (hok : ∀ x ∈ xs, (Runce.killStep env dryRun remove x).raised = none) :
    Runce.killBatch env dryRun remove xs =
      xs.map (Runce.killStep env dryRun remove) ∧
    (Runce.killBatch env dryRun remove xs).length = xs.length ∧
    (∀ (y : Runce.RecInfo) (x2 : Nat) (hpl : env.pgidOf x2 = .error .processLookup),
      y.pid = x2 → (Runce.killStep env dryRun remove y).raised = none) ∧
    ∀ (y : Runce.RecInfo) (rest : List Runce.RecInfo) (e : Runce.OsErr),
      (Runce.killStep env dryRun remove y).raised = some e →
      Runce.killBatch env dryRun remove (y :: rest) =
        [Runce.killStep env dryRun remove y] := by
  have hmap : Runce.killBatch env dryRun remove xs =
      xs.map (Runce.killStep env dryRun remove) := by
    induction xs with
    | nil => simp [Runce.killBatch]
    | cons x rest ih =>
      have hx := hok x (List.mem_cons_self x rest)
      simp only [Runce.killBatch, hx, List.map_cons]
      exact congrArg _ (ih fun z hz => hok z (List.mem_cons_of_mem x hz))
  refine ⟨hmap, by rw [hmap]; exact List.length_map xs _, ?_, ?_⟩
  · intro y x2 hpl hy
    subst hy
    simp [Runce.killStep, hpl]
  · intro y rest e he
    simp only [Runce.killBatch, he]

/-- Witness for the amended C7: every signal succeeds, two records, both
processed. -/
theorem C7_witness :
    Runce.killBatch ⟨fun _ => .ok 4, fun _ => .ok ()⟩ false false
        [⟨[], [], [], ['a'], 1, [], 1⟩, ⟨[], [], [], ['b'], 2, [], 2⟩] =
      [⟨[], [], [], ['a'], 1, [], 1⟩, ⟨[], [], [], ['b'], 2, [], 2⟩].map
        (Runce.killStep ⟨fun _ => .ok 4, fun _ => .ok ()⟩ false false) ∧
    (Runce.killBatch ⟨fun _ => .ok 4, fun _ => .ok ()⟩ false false
        [⟨[], [], [], ['a'], 1, [], 1⟩, ⟨[], [], [], ['b'], 2, [], 2⟩]).length =
      ([⟨[], [], [], ['a'], 1, [], 1⟩,
        ⟨[], [], [], ['b'], 2, [], 2⟩] : List Runce.RecInfo).length ∧
    (∀ (y : Runce.RecInfo) (x2 : Nat)
      (hpl : (⟨fun _ => .ok 4, fun _ => .ok ()⟩ : Runce.KillEnv).pgidOf x2 =
        .error .processLookup),
      y.pid = x2 →
        (Runce.killStep ⟨fun _ => .ok 4, fun _ => .ok ()⟩ false false y).raised =
          none) ∧
    ∀ (y : Runce.RecInfo) (rest : List Runce.RecInfo) (e : Runce.OsErr),
      (Runce.killStep ⟨fun _ => .ok 4, fun _ => .ok ()⟩ false false y).raised =
        some e →
      Runce.killBatch ⟨fun _ => .ok 4, fun _ => .ok ()⟩ false false (y :: rest) =
        [Runce.killStep ⟨fun _ => .ok 4, fun _ => .ok ()⟩ false false y] :=
  C7_kill_batch_isolation ⟨fun _ => .ok 4, fun _ => .ok ()⟩ false false
    [⟨[], [], [], ['a'], 1, [], 1⟩, ⟨[], [], [], ['b'], 2, [], 2⟩]
    (by intro x hx; fin_cases hx <;> rfl)

/-- C10: everything `Spawn.all` yields comes from a regular directory entry
whose name ends in `.run.json` and whose size was nonzero at scan time, was
parsed from that entry's contents, and carries the entry's path in its
`file` field; zero-byte backing files are never yielded. -/
theorem C10_all_yields_nonzero_runjson (parse : List Nat → Option Runce.RecInfo)
    (dataDir : List Char) (entries : List Runce.DirEntry)
    (y : Runce.RecInfo × List Char)
    (hy : y ∈ Runce.allRecords parse dataDir entries) :
    ∃ e ∈ entries, e.isFile = true ∧ Runce.runJsonSuffix <:+ e.fname ∧
      0 < e.content.length ∧ parse e.content = some y.1 ∧
      y.2 = dataDir ++ '/' :: e.fname := by
  induction entries with
  | nil => simp [Runce.allRecords] at hy
  | cons e rest ih =>
    by_cases hcond : e.isFile = true ∧ Runce.runJsonSuffix <:+ e.fname ∧
        0 < e.content.length
    · rcases hp : parse e.content with _ | d
      · simp only [Runce.allRecords, if_pos hcond, hp] at hy
        obtain ⟨e2, he2, hrest⟩ := ih hy
        exact ⟨e2, List.mem_cons_of_mem _ he2, hrest⟩
      · simp only [Runce.allRecords, if_pos hcond, hp, List.mem_cons] at hy
        rcases hy with rfl | hy
        · exact ⟨e, List.mem_cons_self _ _, hcond.1, hcond.2.1, hcond.2.2,
            by rw [hp], rfl⟩
        · obtain ⟨e2, he2, hrest⟩ := ih hy
          exact ⟨e2, List.mem_cons_of_mem _ he2, hrest⟩
    · simp only [Runce.allRecords, if_neg hcond] at hy
      obtain ⟨e2, he2, hrest⟩ := ih hy
      exact ⟨e2, List.mem_cons_of_mem _ he2, hrest⟩

/-- Witness for C10 on a two-entry directory (one valid backing file, one
zero-byte file that is skipped). -/
theorem C10_witness :
    ∃ e ∈ [(⟨'x' :: Runce.runJsonSuffix, true, [49]⟩ : Runce.DirEntry),
           ⟨'z' :: Runce.runJsonSuffix, true, []⟩],
      e.isFile = true ∧ Runce.runJsonSuffix <:+ e.fname ∧
      0 < e.content.length ∧
      (fun b => if b = [49] then some (⟨[], [], [], ['n'], 5, [], 7⟩ : Runce.RecInfo)
        else none) e.content =
        some ((⟨[], [], [], ['n'], 5, [], 7⟩ : Runce.RecInfo),
          ['d'] ++ '/' :: ('x' :: Runce.runJsonSuffix)).1 ∧
      ((⟨[], [], [], ['n'], 5, [], 7⟩ : Runce.RecInfo),
        ['d'] ++ '/' :: ('x' :: Runce.runJsonSuffix)).2 = ['d'] ++ '/' :: e.fname :=
  C10_all_yields_nonzero_runjson
    (fun b => if b = [49] then some ⟨[], [], [], ['n'], 5, [], 7⟩ else none)
    ['d']
    [⟨'x' :: Runce.runJsonSuffix, true, [49]⟩, ⟨'z' :: Runce.runJsonSuffix, true, []⟩]
    (⟨[], [], [], ['n'], 5, [], 7⟩, ['d'] ++ '/' :: ('x' :: Runce.runJsonSuffix))
    (by decide)
